import Mathlib

/-!
Verification of the schema-translation and chunked-transfer engine of the
`mysql-to-sqlite3` transporter (`src/mysql_to_sqlite3/transporter.py`).

The Python code is shallowly embedded: pure helpers become Lean functions on
`String` / `List Char`, the stateful transfer routines become explicit
state-passing functions that also record the trace of database effects
(inserts, commits, reconnects), and exceptions become `Except` / explicit
result constructors.
-/

namespace MySQLtoSQLite

/-- Python `str.strip()` on a character list: drop whitespace from both ends. -/
def pyStrip (cs : List Char) : List Char :=
  ((cs.dropWhile Char.isWhitespace).reverse.dropWhile Char.isWhitespace).reverse

/-- Python `str.upper()` for the ASCII type-name tokens this code handles:
upper-case every character. -/
def pyUpper (s : String) : String :=
  String.mk (s.toList.map Char.toUpper)

/-- `COLUMN_PATTERN = re.compile(r"^[^(]+")` applied via `.match` to
`column_type.strip()` (`_valid_column_type`): the match succeeds iff the
stripped string has a nonempty leading run of non-`(` characters, and
`group(0)` is that maximal run. -/
def valid_column_type (s : String) : Option String :=
  let m := (pyStrip s.toList).takeWhile (fun c => c ≠ '(')
  if m.isEmpty then none else some (String.mk m)

/-- `COLUMN_LENGTH_PATTERN = re.compile(r"\(\d+\)$")` applied via `.search` to
the original string (`_column_type_length`): the trailing `(digits)` suffix
with at least one digit, or `""` when absent. -/
def column_type_length (s : String) : String :=
  match s.toList.reverse with
  | ')' :: rest =>
    let ds := rest.takeWhile Char.isDigit
    if ds.isEmpty then "" else
      match rest.drop ds.length with
      | '(' :: _ => String.mk (('(' :: ds.reverse) ++ [')'])
      | _ => ""
  | _ => ""

/-- `MySQLtoSQLite._translate_type_from_mysql_to_sqlite`: raises
`ValueError("Invalid column_type!")` when `_valid_column_type` finds no match,
otherwise dispatches on the upper-cased leading token exactly as the chain of
`if` statements in the source does, falling back to `"TEXT"`. -/
def translate_type_from_mysql_to_sqlite (column_type : String) :
    Except String String :=
  match valid_column_type column_type with
  | none => .error "Invalid column_type!"
  | some m =>
    let data_type := pyUpper m
    if data_type = "TINYINT" then .ok "TINYINT"
    else if data_type = "SMALLINT" then .ok "SMALLINT"
    else if data_type = "MEDIUMINT" then .ok "MEDIUMINT"
    else if data_type = "INT" ∨ data_type = "INTEGER" then .ok "INTEGER"
    else if data_type = "BIGINT" then .ok "BIGINT"
    else if data_type = "DOUBLE" then .ok "DOUBLE"
    else if data_type = "FLOAT" then .ok "FLOAT"
    else if data_type = "DECIMAL" ∨ data_type = "YEAR" ∨ data_type = "TIME" ∨
        data_type = "NUMERIC" then .ok "NUMERIC"
    else if data_type = "REAL" then .ok "REAL"
    else if data_type = "DATETIME" ∨ data_type = "TIMESTAMP" then .ok "DATETIME"
    else if data_type = "DATE" then .ok "DATE"
    else if data_type = "BIT" ∨ data_type = "BINARY" ∨ data_type = "BLOB" ∨
        data_type = "LONGBLOB" ∨ data_type = "MEDIUMBLOB" ∨
        data_type = "TINYBLOB" ∨ data_type = "VARBINARY" then .ok "BLOB"
    else if data_type = "BOOLEAN" then .ok "BOOLEAN"
    else if data_type = "CHAR" then .ok ("CHARACTER" ++ column_type_length column_type)
    else if data_type = "NCHAR" then .ok ("NCHAR" ++ column_type_length column_type)
    else if data_type = "NVARCHAR" then .ok ("NVARCHAR" ++ column_type_length column_type)
    else if data_type = "VARCHAR" then .ok ("VARCHAR" ++ column_type_length column_type)
    else .ok "TEXT"

/-- The upper-cased leading tokens recognized by the dispatch chain of
`_translate_type_from_mysql_to_sqlite` (every token compared against
`data_type` before the final `TEXT` fallback). -/
def recognizedTypes : List String :=
  ["TINYINT", "SMALLINT", "MEDIUMINT", "INT", "INTEGER", "BIGINT", "DOUBLE",
   "FLOAT", "DECIMAL", "YEAR", "TIME", "NUMERIC", "REAL", "DATETIME",
   "TIMESTAMP", "DATE", "BIT", "BINARY", "BLOB", "LONGBLOB", "MEDIUMBLOB",
   "TINYBLOB", "VARBINARY", "BOOLEAN", "CHAR", "NCHAR", "NVARCHAR", "VARCHAR"]

/-- An `if` whose positive branch is a plain `.ok` and whose negative branch
already returns normally also returns normally. -/
theorem ite_ok {c : Prop} [Decidable c] (a : String) {rest : Except String String}
    (h : ∃ t, rest = .ok t) : ∃ t, (if c then Except.ok a else rest) = .ok t := by
  by_cases hc : c
  · exact ⟨a, if_pos hc⟩
  · rw [if_neg hc]; exact h

/-- Whenever `_valid_column_type` matches, the translation returns normally
(every branch of the dispatch chain is a plain return). -/
theorem translate_ok_of_valid (s m : String) (h : valid_column_type s = some m) :
    ∃ t, translate_type_from_mysql_to_sqlite s = .ok t := by
  unfold translate_type_from_mysql_to_sqlite
  rw [h]
  dsimp only
  exact ite_ok _ (ite_ok _ (ite_ok _ (ite_ok _ (ite_ok _ (ite_ok _ (ite_ok _
    (ite_ok _ (ite_ok _ (ite_ok _ (ite_ok _ (ite_ok _ (ite_ok _ (ite_ok _
    (ite_ok _ (ite_ok _ (ite_ok _ ⟨"TEXT", rfl⟩))))))))))))))))

/-- Claim C5, counterexample: the code maps `CHAR(5)` to `CHARACTER(5)`
(branch `data_type == "CHAR"` returns `"CHARACTER" + suffix`), not to
`CHAR(5)` as the claim states for the `CHAR` token. -/
theorem claim_C5_counterexample :
    translate_type_from_mysql_to_sqlite "CHAR(5)" ≠ Except.ok "CHAR(5)" ∧
    translate_type_from_mysql_to_sqlite "CHAR(5)" = Except.ok "CHARACTER(5)" := by
  refine ⟨fun h => ?_, rfl⟩
  have h2 : ("CHARACTER(5)" : String) = "CHAR(5)" := Except.ok.inj h
  exact absurd h2 (by decide)

/-- Claim C5, amended: for an input whose leading token upper-cases to
`NCHAR`, `NVARCHAR` or `VARCHAR` the mapper returns that same name with the
trailing `(digits)` suffix of the original string re-appended verbatim, while
the `CHAR` token is renamed to `CHARACTER` (suffix still re-appended). -/
theorem claim_C5 (s m : String) (h : valid_column_type s = some m)
    (hc : pyUpper m = "CHAR" ∨ pyUpper m = "NCHAR" ∨ pyUpper m = "NVARCHAR" ∨
      pyUpper m = "VARCHAR") :
    translate_type_from_mysql_to_sqlite s =
      .ok ((if pyUpper m = "CHAR" then "CHARACTER" else pyUpper m) ++
        column_type_length s) := by
  unfold translate_type_from_mysql_to_sqlite
  rw [h]
  dsimp only
  rcases hc with hc | hc | hc | hc <;> rw [hc] <;> rfl

/-- Claim C5, witness: the amended theorem applied to `VARCHAR(191)`. -/
theorem claim_C5_witness :
    translate_type_from_mysql_to_sqlite "VARCHAR(191)" =
      .ok ((if pyUpper "VARCHAR" = "CHAR" then "CHARACTER" else pyUpper "VARCHAR") ++
        column_type_length "VARCHAR(191)") :=
  claim_C5 "VARCHAR(191)" "VARCHAR" rfl (Or.inr (Or.inr (Or.inr rfl)))

/-- Claim C6: the type mapper raises exactly when no leading type-name token
is extractable — the stripped input is empty or begins with `(` — and for any
input with an extractable leading token whose upper-cased form is not in the
fixed lookup table it returns `TEXT` and never raises. -/
theorem claim_C6 :
    (∀ s : String, (∃ e, translate_type_from_mysql_to_sqlite s = .error e) ↔
      (pyStrip s.toList = [] ∨ ∃ rest, pyStrip s.toList = '(' :: rest)) ∧
    (∀ s m : String, valid_column_type s = some m →
      pyUpper m ∉ recognizedTypes →
      translate_type_from_mysql_to_sqlite s = .ok "TEXT") := by
  constructor
  · intro s
    constructor
    · rintro ⟨e, he⟩
      cases hl : pyStrip s.toList with
      | nil => exact Or.inl rfl
      | cons c rest =>
        by_cases hc : c = '('
        · subst hc
          exact Or.inr ⟨rest, rfl⟩
        · exfalso
          have hv : valid_column_type s = some (String.mk (List.takeWhile (fun c => c ≠ '(') (pyStrip s.toList))) := by
            unfold valid_column_type
            rw [hl]
            simp [List.takeWhile, hc]
          obtain ⟨t, ht⟩ := translate_ok_of_valid s _ hv
          rw [ht] at he
          exact Except.noConfusion he
    · intro hl
      have hv : valid_column_type s = none := by
        unfold valid_column_type
        rcases hl with hl | ⟨rest, hl⟩ <;> rw [hl] <;> simp [List.takeWhile]
      exact ⟨"Invalid column_type!", by unfold translate_type_from_mysql_to_sqlite; rw [hv]⟩
  · intro s m h hm
    have h1 : ¬ pyUpper m = "TINYINT" := fun hc => hm (by rw [hc]; decide)
    have h2 : ¬ pyUpper m = "SMALLINT" := fun hc => hm (by rw [hc]; decide)
    have h3 : ¬ pyUpper m = "MEDIUMINT" := fun hc => hm (by rw [hc]; decide)
    have h4 : ¬ (pyUpper m = "INT" ∨ pyUpper m = "INTEGER") := by
      rintro (hc | hc) <;> exact hm (by rw [hc]; decide)
    have h5 : ¬ pyUpper m = "BIGINT" := fun hc => hm (by rw [hc]; decide)
    have h6 : ¬ pyUpper m = "DOUBLE" := fun hc => hm (by rw [hc]; decide)
    have h7 : ¬ pyUpper m = "FLOAT" := fun hc => hm (by rw [hc]; decide)
    have h8 : ¬ (pyUpper m = "DECIMAL" ∨ pyUpper m = "YEAR" ∨ pyUpper m = "TIME" ∨
        pyUpper m = "NUMERIC") := by
      rintro (hc | hc | hc | hc) <;> exact hm (by rw [hc]; decide)
    have h9 : ¬ pyUpper m = "REAL" := fun hc => hm (by rw [hc]; decide)
    have h10 : ¬ (pyUpper m = "DATETIME" ∨ pyUpper m = "TIMESTAMP") := by
      rintro (hc | hc) <;> exact hm (by rw [hc]; decide)
    have h11 : ¬ pyUpper m = "DATE" := fun hc => hm (by rw [hc]; decide)
    have h12 : ¬ (pyUpper m = "BIT" ∨ pyUpper m = "BINARY" ∨ pyUpper m = "BLOB" ∨
        pyUpper m = "LONGBLOB" ∨ pyUpper m = "MEDIUMBLOB" ∨
        pyUpper m = "TINYBLOB" ∨ pyUpper m = "VARBINARY") := by
      rintro (hc | hc | hc | hc | hc | hc | hc) <;> exact hm (by rw [hc]; decide)
    have h13 : ¬ pyUpper m = "BOOLEAN" := fun hc => hm (by rw [hc]; decide)
    have h14 : ¬ pyUpper m = "CHAR" := fun hc => hm (by rw [hc]; decide)
    have h15 : ¬ pyUpper m = "NCHAR" := fun hc => hm (by rw [hc]; decide)
    have h16 : ¬ pyUpper m = "NVARCHAR" := fun hc => hm (by rw [hc]; decide)
    have h17 : ¬ pyUpper m = "VARCHAR" := fun hc => hm (by rw [hc]; decide)
    unfold translate_type_from_mysql_to_sqlite
    rw [h]
    dsimp only
    rw [if_neg h1, if_neg h2, if_neg h3, if_neg h4, if_neg h5, if_neg h6,
      if_neg h7, if_neg h8, if_neg h9, if_neg h10, if_neg h11, if_neg h12,
      if_neg h13, if_neg h14, if_neg h15, if_neg h16, if_neg h17]

/-- Claim C6, witness: the fallback half of the theorem applied to the
unrecognized token `ENUM`. -/
theorem claim_C6_witness :
    translate_type_from_mysql_to_sqlite "ENUM" = .ok "TEXT" :=
  claim_C6.2 "ENUM" "ENUM" rfl (by decide)

/-! ### Schema synthesizer (`_build_create_table_sql`) -/

/-- One row of `SHOW COLUMNS FROM` as consumed by `_build_create_table_sql`:
the `Field`, `Type`, `Null` and `Key` entries of the dictionary cursor. -/
structure ShowColumn where
  field : String
  type : String
  null : String
  key : String
deriving DecidableEq, Repr

/-- Python `str.rstrip(", ")`: strip any trailing run of `,` and space. -/
def pyRstripCommaSpace (s : String) : String :=
  String.mk ((s.toList.reverse.dropWhile (fun c => c = ',' ∨ c = ' ')).reverse)

/-- Python `str.split()` with no argument: split on whitespace runs,
discarding empty pieces. -/
def pyWords (s : String) : List String :=
  ((s.toList.splitOnP Char.isWhitespace).map String.mk).filter (fun w => ¬ w.isEmpty)

/-- Python `" ".join(ws)`. -/
def joinSpace : List String → String
  | [] => ""
  | [w] => w
  | w :: w2 :: rest => w ++ " " ++ joinSpace (w2 :: rest)

/-- The external `slugify(name, separator="_")` collaborator, modelled per the
spec's description of it: the name lowercased with every maximal run of
non-alphanumeric characters collapsed to a single `_`, with no leading or
trailing separator. -/
def slugify (s : String) : String :=
  joinUnderscore ((((s.toList.map Char.toLower).splitOnP
    (fun c => ¬ c.isAlphanum)).map String.mk).filter (fun w => ¬ w.isEmpty))
where
  joinUnderscore : List String → String
    | [] => ""
    | [w] => w
    | w :: w2 :: rest => w ++ "_" ++ joinUnderscore (w2 :: rest)

/-- The `for row in self._mysql_cur_dict.fetchall()` loop body of
`_build_create_table_sql`, threading the four accumulators `sql`, `primary`,
`has_primary_key`, `indices` exactly as the source does.  The type
translation may raise, aborting the build. -/
def build_columns (table_name : String) :
    List ShowColumn → String → String → Bool → String →
    Except String (String × String × Bool × String)
  | [], sql, primary, hasPk, indices => .ok (sql, primary, hasPk, indices)
  | row :: rest, sql, primary, hasPk, indices => do
    let t ← translate_type_from_mysql_to_sqlite row.type
    let notnull := if row.null = "YES" then "NULL" else "NOT NULL"
    let sql := sql ++ " \"" ++ row.field ++ "\" " ++ t ++ " " ++ notnull ++ ", "
    if row.key = "PRI" ∨ row.key = "UNI" ∨ row.key = "MUL" then
      if row.key = "PRI" then
        build_columns table_name rest sql
          (primary ++ "\"" ++ row.field ++ "\", ") true indices
      else
        build_columns table_name rest sql primary hasPk
          (indices ++ " CREATE " ++ (if row.key = "UNI" then "UNIQUE" else "") ++
            " INDEX " ++ table_name ++ "_" ++ slugify row.field ++ "_IDX ON \"" ++
            table_name ++ "\" (\"" ++ row.field ++ "\");")
    else
      build_columns table_name rest sql primary hasPk indices

/-- `MySQLtoSQLite._build_create_table_sql`, with the table's `SHOW COLUMNS`
result passed in explicitly instead of read from the dictionary cursor. -/
def build_create_table_sql (table_name : String) (columns : List ShowColumn) :
    Except String String := do
  let sql0 := "CREATE TABLE IF NOT EXISTS \"" ++ table_name ++ "\" ("
  let (sql, primary, hasPk, indices) ←
    build_columns table_name columns sql0 "PRIMARY KEY (" false ""
  let sql := if hasPk then sql ++ pyRstripCommaSpace primary ++ ")" else sql
  let sql := pyRstripCommaSpace sql
  let sql := sql ++ ");"
  let sql := sql ++ indices
  .ok (joinSpace (pyWords sql))

/-- Number of (possibly overlapping) occurrences of `pat` in `cs`. -/
def countOccur (pat : List Char) : List Char → Nat
  | [] => 0
  | c :: rest => (if pat.isPrefixOf (c :: rest) then 1 else 0) + countOccur pat rest

/-- The `orders` table of the C8 scenario as `SHOW COLUMNS` reports it:
`id INT PRIMARY KEY`, `sku VARCHAR(50) UNIQUE`, `qty INT NOT NULL`. -/
def ordersColumns : List ShowColumn :=
  [⟨"id", "INT", "NO", "PRI"⟩, ⟨"sku", "VARCHAR(50)", "NO", "UNI"⟩,
   ⟨"qty", "INT", "NO", ""⟩]

/-- The script the code actually synthesizes for the C8 scenario. -/
def ordersActualScript : String :=
  "CREATE TABLE IF NOT EXISTS \"orders\" ( \"id\" INTEGER NOT NULL, \"sku\" VARCHAR(50) NOT NULL, \"qty\" INTEGER NOT NULL, PRIMARY KEY (\"id\")); CREATE UNIQUE INDEX orders_sku_IDX ON \"orders\" (\"sku\");"

/-- The script claim C8 says is synthesized (no space after `PRIMARY KEY` and
none after the `;` joining the two statements). -/
def ordersClaimedScript : String :=
  "CREATE TABLE IF NOT EXISTS \"orders\" ( \"id\" INTEGER NOT NULL, \"sku\" VARCHAR(50) NOT NULL, \"qty\" INTEGER NOT NULL, PRIMARY KEY(\"id\"));CREATE UNIQUE INDEX orders_sku_IDX ON \"orders\" (\"sku\");"

set_option maxRecDepth 4000 in
/-- Claim C8, counterexample: for the `orders` scenario the synthesizer does
not produce the claimed script — the code emits `PRIMARY KEY ("id")` (space
before the parenthesis, from the literal `"PRIMARY KEY ("`) and a space after
the `;` separating the two statements (from the index template's leading
space surviving `" ".join(sql.split())`). -/
theorem claim_C8_counterexample :
    build_create_table_sql "orders" ordersColumns ≠ .ok ordersClaimedScript ∧
    build_create_table_sql "orders" ordersColumns = .ok ordersActualScript := by
  refine ⟨fun h => ?_, rfl⟩
  have h2 : ordersActualScript = ordersClaimedScript := Except.ok.inj h
  exact absurd h2 (by decide)

set_option maxRecDepth 4000 in
/-- Claim C8, amended: the `orders` scenario synthesizes exactly
`CREATE TABLE IF NOT EXISTS "orders" ( "id" INTEGER NOT NULL, "sku"
VARCHAR(50) NOT NULL, "qty" INTEGER NOT NULL, PRIMARY KEY ("id")); CREATE
UNIQUE INDEX orders_sku_IDX ON "orders" ("sku");` — with a space after
`PRIMARY KEY` and after the joining `;` — and that script contains exactly
one `PRIMARY KEY` clause and exactly one `CREATE UNIQUE INDEX` statement. -/
theorem claim_C8 :
    build_create_table_sql "orders" ordersColumns = .ok ordersActualScript ∧
    countOccur "PRIMARY KEY".toList ordersActualScript.toList = 1 ∧
    countOccur "CREATE UNIQUE INDEX".toList ordersActualScript.toList = 1 :=
  ⟨rfl, by decide, by decide⟩

/-! ### Row values and the decode step (`_transfer_table_data`, lines 254-270) -/

/-- A Python value held in a raw-cursor row: a byte sequence (carrying the
text its `.decode()` yields), a text string, an integer (both lacking a
`.decode()` method), or `None`. -/
inductive Value where
  | bytes (s : String)
  | text (s : String)
  | intv (n : Int)
  | null
deriving DecidableEq, Repr

/-- `col.decode() if col is not None else None`: `None` passes through, a byte
sequence decodes to text, anything else raises `AttributeError`. -/
def decodeCol : Value → Except String Value
  | .null => .ok .null
  | .bytes s => .ok (.text s)
  | .text _ => .error "AttributeError"
  | .intv _ => .error "AttributeError"

/-- `tuple(col.decode() if col is not None else None for col in row)`. -/
def decodeRow : List Value → Except String (List Value)
  | [] => .ok []
  | v :: vs =>
    match decodeCol v, decodeRow vs with
    | .ok d, .ok ds => .ok (d :: ds)
    | .error e, _ => .error e
    | _, .error e => .error e

/-- The generator handed to `executemany`: decode every fetched row. -/
def decodeRows : List (List Value) → Except String (List (List Value))
  | [] => .ok []
  | r :: rs =>
    match decodeRow r, decodeRows rs with
    | .ok d, .ok ds => .ok (d :: ds)
    | .error e, _ => .error e
    | _, .error e => .error e

/-! ### Chunked transfer engine (`_transfer_table_data`) -/

/-- An observable effect on the target connection during one table's
transfer. -/
inductive Ev where
  | insert (rows : List (List Value))
  | commit
  | reconnect
deriving DecidableEq, Repr

/-- The mutable state of one table's transfer: the source cursor's remaining
(unfetched) rows, `self._current_chunk_number`, and the trace of target
effects so far. -/
structure XferState where
  rem : List (List Value)
  curChunk : Nat
  events : List Ev
deriving DecidableEq, Repr

/-- Outcome of one body of `_transfer_table_data`'s `try` block. -/
inductive LoopOut where
  | done (st : XferState)
  | lost (st : XferState)
  | decodeErr (st : XferState)
deriving DecidableEq, Repr

/-- `int(ceil(total_records / chunk_size))` for a positive chunk size. -/
def totalChunks (total n : Nat) : Nat := (total + n - 1) / n

/-- The `for chunk in trange(current, totalChunks)` loop: each iteration first
stores `chunk` into `self._current_chunk_number`, then `executemany` consumes
`fetchmany(chunk_size)`.  `fail chunk = true` injects a `CR_SERVER_LOST`
raised by that fetch (before any row of the chunk is delivered); a
non-decodable value raises `AttributeError` out of the generator.  `fuel` is
the number of remaining iterations, `stop - chunk`. -/
def chunkLoop (n : Nat) (fail : Nat → Bool) :
    Nat → Nat → XferState → LoopOut
  | 0, _, st => .done st
  | fuel + 1, chunk, st =>
    let st := { st with curChunk := chunk }
    if fail chunk then .lost st
    else
      let fetched := st.rem.take n
      match decodeRows fetched with
      | .error _ => .decodeErr st
      | .ok dec =>
        chunkLoop n fail fuel (chunk + 1)
          { st with rem := st.rem.drop n, events := st.events ++ [.insert dec] }

/-- One execution of `_transfer_table_data`'s `try` block up to (and not
including) the final `commit`: the chunked loop when
`chunk_size is not None and chunk_size > 0`, otherwise one `fetchall` /
`executemany` pass (`failAll` injects `CR_SERVER_LOST` on that fetch). -/
def attemptTransfer (chunkSize : Option Int) (totalRecords : Nat)
    (fail : Nat → Bool) (failAll : Bool) (st : XferState) : LoopOut :=
  match chunkSize with
  | some n =>
    if n > 0 then
      chunkLoop n.toNat fail (totalChunks totalRecords n.toNat - st.curChunk)
        st.curChunk st
    else
      unchunked st
  | none => unchunked st
where
  unchunked (st : XferState) : LoopOut :=
    if failAll then .lost st
    else
      match decodeRows st.rem with
      | .error _ => .decodeErr st
      | .ok dec => .done { st with rem := [], events := st.events ++ [.insert dec] }

/-- How one call of `_transfer_table_data` terminates. -/
inductive XferResult where
  | ok (st : XferState)
  | raisedLost (st : XferState)
  | raisedDecode (st : XferState)
deriving DecidableEq, Repr

/-- `MySQLtoSQLite._transfer_table_data` including its `except` clauses:
on a first `CR_SERVER_LOST` the handler reconnects and re-runs the operation
(`attempting_reconnect=True`) — the source cursor is modelled as resuming at
its current position — but after that recursive call returns, control falls
through to the unconditional re-raise at the end of the handler, so the
original `CR_SERVER_LOST` propagates even when the retry succeeded (and
committed).  A loss during the retry propagates directly.  `fail0`/`failAll0`
script the first attempt's fetch failures, `fail1`/`failAll1` the retry's. -/
def transfer_table_data (chunkSize : Option Int) (totalRecords : Nat)
    (fail0 fail1 : Nat → Bool) (failAll0 failAll1 : Bool)
    (st : XferState) : XferResult :=
  match attemptTransfer chunkSize totalRecords fail0 failAll0 st with
  | .done st1 => .ok { st1 with events := st1.events ++ [.commit] }
  | .decodeErr st1 => .raisedDecode st1
  | .lost st1 =>
    match attemptTransfer chunkSize totalRecords fail1 failAll1
        { st1 with events := st1.events ++ [.reconnect] } with
    | .done st2 => .raisedLost { st2 with events := st2.events ++ [.commit] }
    | .decodeErr st2 => .raisedDecode st2
    | .lost st2 => .raisedLost st2

/-- The initial transfer state for one table: the orchestrator has reset
`_current_chunk_number` to 0 and executed `SELECT *`, so the cursor holds all
of the table's rows. -/
def initState (rows : List (List Value)) : XferState := ⟨rows, 0, []⟩

/-- A fetch-failure script that never fails. -/
def noFail : Nat → Bool := fun _ => false

/-- All rows handed to `executemany` over a trace, in order. -/
def insertedRows : List Ev → List (List Value)
  | [] => []
  | .insert rs :: rest => rs ++ insertedRows rest
  | .commit :: rest => insertedRows rest
  | .reconnect :: rest => insertedRows rest

example :
    transfer_table_data (some 1) 2 noFail noFail false false
      (initState [[Value.bytes "a"], [Value.bytes "b"]]) =
    .ok ⟨[], 1, [.insert [[Value.text "a"]], .insert [[Value.text "b"]], .commit]⟩ := rfl

example :
    transfer_table_data none 2 noFail noFail false false
      (initState [[Value.bytes "a"], [Value.bytes "b"]]) =
    .ok ⟨[], 0, [.insert [[Value.text "a"], [Value.text "b"]], .commit]⟩ := rfl

/-- Decoding a `take`/`drop` split of a decodable row list yields the
`take`/`drop` split of its decoding. -/
theorem decodeRows_take_drop :
    ∀ (n : Nat) {l d : List (List Value)}, decodeRows l = .ok d →
      decodeRows (l.take n) = .ok (d.take n) ∧
      decodeRows (l.drop n) = .ok (d.drop n) := by
  intro n
  induction n with
  | zero =>
    intro l d h
    exact ⟨rfl, by simpa using h⟩
  | succ k ih =>
    intro l d h
    cases l with
    | nil =>
      simp only [decodeRows] at h
      obtain rfl : ([] : List (List Value)) = d := Except.ok.inj h
      exact ⟨rfl, rfl⟩
    | cons r rs =>
      cases hr : decodeRow r with
      | error e =>
        simp only [decodeRows, hr] at h
        exact Except.noConfusion h
      | ok dr =>
        cases hrs : decodeRows rs with
        | error e =>
          simp only [decodeRows, hr, hrs] at h
          exact Except.noConfusion h
        | ok ds =>
          simp only [decodeRows, hr, hrs] at h
          obtain rfl : dr :: ds = d := Except.ok.inj h
          obtain ⟨h1, h2⟩ := ih hrs
          refine ⟨?_, by simpa using h2⟩
          simp only [List.take_succ_cons, decodeRows, hr, h1, List.take_succ_cons]

/-- The length bound needed to show the chunk loop drains the cursor:
`ceil(total/n) * n ≥ total`. -/
theorem le_totalChunks_mul (total n : Nat) (hn : 0 < n) :
    total ≤ totalChunks total n * n := by
  have h := le_smul_ceilDiv (α := ℕ) (β := ℕ) hn (b := total)
  rw [Nat.ceilDiv_eq_add_pred_div, smul_eq_mul] at h
  rw [totalChunks, Nat.mul_comm]
  exact h

/-- `insertedRows` distributes over trace concatenation. -/
theorem insertedRows_append (a b : List Ev) :
    insertedRows (a ++ b) = insertedRows a ++ insertedRows b := by
  induction a with
  | nil => rfl
  | cons e rest ih =>
    cases e <;> simp [insertedRows, ih]

/-- With no injected failure and fully decodable remaining rows, the chunk
loop runs to completion, drains the cursor, and appends one `insert` event
per chunk whose payloads concatenate to the decoded rows. -/
theorem chunkLoop_noFail (n : Nat) :
    ∀ (fuel chunk : Nat) (st : XferState) (d : List (List Value)),
      st.rem.length ≤ fuel * n →
      decodeRows st.rem = .ok d →
      ∃ st' news, chunkLoop n noFail fuel chunk st = .done st' ∧
        st'.rem = [] ∧
        st'.events = st.events ++ news ∧
        insertedRows news = d ∧
        ∀ e ∈ news, ∃ rs, e = Ev.insert rs := by
  intro fuel
  induction fuel with
  | zero =>
    intro chunk st d hlen hdec
    have hrem : st.rem = [] := List.eq_nil_of_length_eq_zero (Nat.le_zero.mp (by simpa using hlen))
    rw [hrem] at hdec
    obtain rfl : ([] : List (List Value)) = d := Except.ok.inj hdec
    exact ⟨st, [], rfl, hrem, by simp, rfl, by simp⟩
  | succ k ih =>
    intro chunk st d hlen hdec
    obtain ⟨htake, hdrop⟩ := decodeRows_take_drop n hdec
    have hlen2 : (st.rem.drop n).length ≤ k * n := by
      rw [List.length_drop]
      rw [Nat.succ_mul] at hlen
      omega
    obtain ⟨st', news', hrun, hrem, hevs, hins, hshape⟩ :=
      ih (chunk + 1)
        { st with curChunk := chunk, rem := st.rem.drop n,
                  events := st.events ++ [.insert (d.take n)] }
        (d.drop n) hlen2 hdrop
    refine ⟨st', Ev.insert (d.take n) :: news', ?_, hrem, ?_, ?_, ?_⟩
    · simp only [chunkLoop, noFail, Bool.false_eq_true, if_false, htake]
      exact hrun
    · rw [hevs]
      simp [List.append_assoc]
    · simp only [insertedRows, hins, List.take_append_drop]
    · intro e he
      rcases List.mem_cons.mp he with rfl | he2
      · exact ⟨_, rfl⟩
      · exact hshape e he2

/-- When the fetch for chunk `c` (and only it) raises `CR_SERVER_LOST`, the
loop inserts exactly the chunks before `c`, stops with
`self._current_chunk_number = c`, and the cursor still holds everything from
chunk `c` on: the resume index has moved past a chunk only after that chunk's
insert succeeded. -/
theorem chunkLoop_failAt (n c : Nat) :
    ∀ (fuel chunk : Nat) (st : XferState) (d : List (List Value)),
      chunk ≤ c → c < chunk + fuel →
      decodeRows st.rem = .ok d →
      ∃ st' news, chunkLoop n (fun k => k == c) fuel chunk st = .lost st' ∧
        st'.curChunk = c ∧
        st'.rem = st.rem.drop ((c - chunk) * n) ∧
        st'.events = st.events ++ news ∧
        insertedRows news = d.take ((c - chunk) * n) ∧
        ∀ e ∈ news, ∃ rs, e = Ev.insert rs := by
  intro fuel
  induction fuel with
  | zero =>
    intro chunk st d hle hlt _
    omega
  | succ k ih =>
    intro chunk st d hle hlt hdec
    by_cases heq : chunk = c
    · subst heq
      refine ⟨{ st with curChunk := chunk }, [], ?_, rfl, ?_, by simp, ?_, by simp⟩
      · simp [chunkLoop]
      · simp [Nat.sub_self]
      · simp [Nat.sub_self, insertedRows]
    · have hlt2 : chunk < c := Nat.lt_of_le_of_ne hle heq
      obtain ⟨htake, hdrop⟩ := decodeRows_take_drop n hdec
      obtain ⟨st', news', hrun, hcur, hrem, hevs, hins, hshape⟩ :=
        ih (chunk + 1)
          { st with curChunk := chunk, rem := st.rem.drop n,
                    events := st.events ++ [.insert (d.take n)] }
          (d.drop n) hlt2 (by omega) hdrop
      refine ⟨st', Ev.insert (d.take n) :: news', ?_, hcur, ?_, ?_, ?_, ?_⟩
      · simp only [chunkLoop, beq_iff_eq, if_neg heq, htake]
        exact hrun
      · rw [hrem]
        simp only [List.drop_drop]
        congr 1
        have : c - chunk = (c - (chunk + 1)) + 1 := by omega
        rw [this, Nat.succ_mul]
        ring
      · rw [hevs]
        simp [List.append_assoc]
      · have hsplit : (c - chunk) * n = n + (c - (chunk + 1)) * n := by
          have : c - chunk = (c - (chunk + 1)) + 1 := by omega
          rw [this, Nat.succ_mul]
          ring
        rw [hsplit, List.take_add]
        simp only [insertedRows, hins]
      · intro e he
        rcases List.mem_cons.mp he with rfl | he2
        · exact ⟨_, rfl⟩
        · exact hshape e he2

/-- Claim C3: chunked and unchunked transfer of the same fully decodable
source rows both succeed and hand the target exactly the same rows in the
same order, for any chunk size from 1 to the total row count. -/
theorem claim_C3 (rows d : List (List Value)) (n : Nat) (h1 : 1 ≤ n)
    (h2 : n ≤ rows.length) (hdec : decodeRows rows = .ok d) :
    ∃ stc stu,
      transfer_table_data (some (n : Int)) rows.length noFail noFail false false
        (initState rows) = .ok stc ∧
      transfer_table_data none rows.length noFail noFail false false
        (initState rows) = .ok stu ∧
      insertedRows stc.events = insertedRows stu.events ∧
      insertedRows stu.events = d := by
  obtain ⟨st', news, hrun, hrem, hevs, hins, hshape⟩ :=
    chunkLoop_noFail n (totalChunks rows.length n) 0 (initState rows) d
      (by simpa [initState] using le_totalChunks_mul rows.length n h1) hdec
  have hatt : attemptTransfer (some (n : Int)) rows.length noFail false
      (initState rows) = .done st' := by
    simp only [attemptTransfer]
    rw [if_pos (by exact_mod_cast h1)]
    simpa [initState, Int.toNat_natCast] using hrun
  have hattu : attemptTransfer none rows.length noFail false
      (initState rows) = .done ⟨[], 0, [Ev.insert d]⟩ := by
    simp [attemptTransfer, attemptTransfer.unchunked, initState, hdec]
  refine ⟨{ st' with events := st'.events ++ [.commit] },
    ⟨[], 0, [Ev.insert d, Ev.commit]⟩, ?_, ?_, ?_, ?_⟩
  · simp only [transfer_table_data, hatt]
  · simp only [transfer_table_data, hattu]
    rfl
  · simp only [hevs, initState, insertedRows_append, insertedRows, hins]
    simp
  · simp [insertedRows]

/-- Claim C3, witness: chunk size 1 versus one pass over a two-row table. -/
theorem claim_C3_witness :
    ∃ stc stu,
      transfer_table_data (some ((1 : Nat) : Int)) 2 noFail noFail false false
        (initState [[Value.bytes "a"], [Value.bytes "b"]]) = .ok stc ∧
      transfer_table_data none 2 noFail noFail false false
        (initState [[Value.bytes "a"], [Value.bytes "b"]]) = .ok stu ∧
      insertedRows stc.events = insertedRows stu.events ∧
      insertedRows stu.events = [[Value.text "a"], [Value.text "b"]] := by
  have h := claim_C3 [[Value.bytes "a"], [Value.bytes "b"]]
    [[Value.text "a"], [Value.text "b"]] 1 (by decide) (by decide) rfl
  simpa using h

/-- Claim C2, counterexample: a two-row table at chunk size 1 is transferred
in two chunks but its trace carries exactly one `commit`, placed after both
inserts — the engine does not commit after every chunk. -/
theorem claim_C2_counterexample :
    ∃ st, transfer_table_data (some 1) 2 noFail noFail false false
        (initState [[Value.bytes "a"], [Value.bytes "b"]]) = .ok st ∧
      totalChunks 2 1 = 2 ∧
      st.events = [.insert [[Value.text "a"]], .insert [[Value.text "b"]], .commit] ∧
      (st.events.filter (fun e => e == Ev.commit)).length = 1 :=
  ⟨_, rfl, rfl, rfl, rfl⟩

/-- Claim C2, amended: during a chunked table transfer the engine issues a
single target commit, after all chunks (the trace ends in its only `commit`),
not one per chunk; the resume chunk index does advance past a chunk only
after that chunk's insert has succeeded — a fetch failure at chunk `c` leaves
the index at `c` with exactly the chunks before `c` inserted. -/
theorem claim_C2 (rows d : List (List Value)) (n c : Nat) (h1 : 1 ≤ n)
    (hdec : decodeRows rows = .ok d)
    (hc : c < totalChunks rows.length n) :
    (∃ st, transfer_table_data (some (n : Int)) rows.length noFail noFail false false
        (initState rows) = .ok st ∧
      (st.events.filter (fun e => e == Ev.commit)).length = 1 ∧
      st.events.getLast? = some Ev.commit ∧
      insertedRows st.events = d) ∧
    (∃ st, attemptTransfer (some (n : Int)) rows.length (fun k => k == c) false
        (initState rows) = .lost st ∧
      st.curChunk = c ∧
      insertedRows st.events = d.take (c * n)) := by
  constructor
  · obtain ⟨st', news, hrun, hrem, hevs, hins, hshape⟩ :=
      chunkLoop_noFail n (totalChunks rows.length n) 0 (initState rows) d
        (by simpa [initState] using le_totalChunks_mul rows.length n h1) hdec
    have hatt : attemptTransfer (some (n : Int)) rows.length noFail false
        (initState rows) = .done st' := by
      simp only [attemptTransfer]
      rw [if_pos (by exact_mod_cast h1)]
      simpa [initState, Int.toNat_natCast] using hrun
    refine ⟨{ st' with events := st'.events ++ [.commit] }, ?_, ?_, ?_, ?_⟩
    · simp only [transfer_table_data, hatt]
    · have hnone : news.filter (fun e => e == Ev.commit) = [] := by
        rw [List.filter_eq_nil_iff]
        intro e he
        obtain ⟨rs, rfl⟩ := hshape e he
        simp
      simp [hevs, initState, List.filter_append, hnone]
    · simp [hevs]
    · simp [hevs, initState, insertedRows_append, insertedRows, hins]
  · obtain ⟨st', news, hrun, hcur, hrem, hevs, hins, hshape⟩ :=
      chunkLoop_failAt n c (totalChunks rows.length n) 0 (initState rows) d
        (Nat.zero_le c) (by simpa using hc) hdec
    refine ⟨st', ?_, hcur, ?_⟩
    · simp only [attemptTransfer]
      rw [if_pos (by exact_mod_cast h1)]
      simpa [initState, Int.toNat_natCast] using hrun
    · simp only [hevs, initState, insertedRows]
      simpa using hins

/-- Claim C2, witness: the amended theorem at chunk size 1 over two rows,
with the injected failure at chunk 1. -/
theorem claim_C2_witness :
    (∃ st, transfer_table_data (some ((1 : Nat) : Int)) 2 noFail noFail false false
        (initState [[Value.bytes "a"], [Value.bytes "b"]]) = .ok st ∧
      (st.events.filter (fun e => e == Ev.commit)).length = 1 ∧
      st.events.getLast? = some Ev.commit ∧
      insertedRows st.events = [[Value.text "a"], [Value.text "b"]]) ∧
    (∃ st, attemptTransfer (some ((1 : Nat) : Int)) 2 (fun k => k == 1) false
        (initState [[Value.bytes "a"], [Value.bytes "b"]]) = .lost st ∧
      st.curChunk = 1 ∧
      insertedRows st.events = [[Value.text "a"], [Value.text "b"]].take (1 * 1)) :=
  claim_C2 [[Value.bytes "a"], [Value.bytes "b"]]
    [[Value.text "a"], [Value.text "b"]] 1 1 (by decide) rfl (by decide)

/-! ### Table creator retry logic (`_create_table`) -/

/-- Classification of a `mysql.connector.Error` by the only errno the handler
inspects. -/
inductive MySQLErrno where
  | serverLost
  | otherErr
deriving DecidableEq, Repr

/-- How one underlying attempt of `_create_table` (introspect the source,
build the DDL, execute it on the target) terminates. -/
inductive AttemptOutcome where
  | ok
  | mysqlErr (e : MySQLErrno)
  | sqliteErr
deriving DecidableEq, Repr

/-- How the `_create_table` call as a whole terminates. -/
inductive OpResult where
  | success
  | raisedMysql (e : MySQLErrno)
  | raisedSqlite
deriving DecidableEq, Repr

/-- The exception control flow of `MySQLtoSQLite._create_table`, as a function
of how the first attempt and (if reached) the reconnect retry turn out.  On a
first `CR_SERVER_LOST` the handler recursively calls itself with
`attempting_reconnect=True`; in the retry, a `CR_SERVER_LOST` hits the
`else` branch and re-raises, any other source error skips to the logging
re-raise, and a target error re-raises from the second handler.  When the
recursive call returns normally, the outer handler does not return: it falls
through to `self._logger.error(...)` and the final `raise`, re-raising the
original `CR_SERVER_LOST`. -/
def create_table_result (first retry2 : AttemptOutcome) : OpResult :=
  match first with
  | .ok => .success
  | .sqliteErr => .raisedSqlite
  | .mysqlErr e =>
    if e = .serverLost then
      match (match retry2 with
        | .ok => OpResult.success
        | .mysqlErr e2 => .raisedMysql e2
        | .sqliteErr => .raisedSqlite) with
      | .success => .raisedMysql .serverLost
      | r => r
    else .raisedMysql e

/-- Claim C1: contrary to the claim, a first-attempt connection loss followed
by a fully successful reconnect retry still propagates the original
`CR_SERVER_LOST`, for both table creation and chunk transfer — the handler
re-raises unconditionally after the recursive retry call returns.  (A second
consecutive loss propagates too, which is the one part the claim gets
right.)  In the transfer instance the retry demonstrably completed: both rows
were inserted and the commit was issued before the error surfaced. -/
theorem claim_C1 :
    create_table_result (.mysqlErr .serverLost) .ok = .raisedMysql .serverLost ∧
    create_table_result (.mysqlErr .serverLost) (.mysqlErr .serverLost) =
      .raisedMysql .serverLost ∧
    transfer_table_data (some 1) 2 (fun k => k == 0) noFail false false
      (initState [[Value.bytes "a"], [Value.bytes "b"]]) =
    .raisedLost ⟨[], 1, [.reconnect, .insert [[Value.text "a"]],
      .insert [[Value.text "b"]], .commit]⟩ :=
  ⟨rfl, rfl, rfl⟩

/-- The C7 scenario's source: 1000 rows, fetched 100 at a time. -/
def bigRows : List (List Value) := List.replicate 1000 [Value.bytes "x"]

/-- One decoded chunk of the C7 scenario. -/
def bigChunk : Ev := .insert (List.replicate 100 [Value.text "x"])

/-- Claim C7: with a source disconnect injected at chunk 3 of 10 (chunk size
100, 1000 rows), exactly one reconnect happens and the transfer resumes at
chunk 3 — the trace is chunks 0-2, the reconnect, then chunks 3-9 and the
commit, so the retry re-sends neither chunk 0 nor the whole table — but the
run still aborts with the connection-lost error after the successful resume
(the fall-through re-raise of `_transfer_table_data`); with a second
disconnect at the same point the transfer stops at chunk 3 with no commit. -/
theorem claim_C7 :
    (∃ st, transfer_table_data (some 100) 1000 (fun k => k == 3) noFail false false
        (initState bigRows) = .raisedLost st ∧
      st.events = List.replicate 3 bigChunk ++ [.reconnect] ++
        List.replicate 7 bigChunk ++ [.commit] ∧
      (st.events.filter (fun e => e == Ev.reconnect)).length = 1) ∧
    (∃ st, transfer_table_data (some 100) 1000 (fun k => k == 3) (fun k => k == 3)
        false false (initState bigRows) = .raisedLost st ∧
      st.curChunk = 3 ∧
      st.events = List.replicate 3 bigChunk ++ [.reconnect]) :=
  ⟨⟨_, rfl, by decide, by decide⟩, ⟨_, rfl, by decide, by decide⟩⟩

/-! ### Migration orchestrator (`transfer`) over a structured target model

`transfer()` enumerates the source tables and, per table, runs
`_create_table` and — when `COUNT(*)` is positive — `_transfer_table_data`
with an `INSERT OR IGNORE` statement.  The target store is modelled
structurally: each created table keeps the column positions of its `PRI` and
`UNI` columns (which are the uniqueness constraints the synthesized DDL
installs) and its rows; the set of index names created so far is tracked
because the synthesized `CREATE [UNIQUE] INDEX` statements carry no
`IF NOT EXISTS` and fail when the name already exists. -/

/-- One source table as the orchestrator sees it: its name, its
`SHOW COLUMNS` result, and its `SELECT *` rows. -/
structure SrcTable where
  name : String
  columns : List ShowColumn
  rows : List (List Value)

/-- A table in the target store. -/
structure TgtTable where
  pk : List Nat
  uniq : List Nat
  rows : List (List Value)
deriving DecidableEq, Repr

/-- The target store: tables by name plus every index name created so far. -/
structure Target where
  tables : List (String × TgtTable)
  indexNames : List String
deriving DecidableEq, Repr

/-- Positions of the columns whose `Key` equals `k`. -/
def keyIdx (cols : List ShowColumn) (k : String) : List Nat :=
  (cols.enum.filter (fun p => p.2.key = k)).map (fun p => p.1)

/-- The index names the synthesized DDL creates for a table: one
`<table>_<slug(column)>_IDX` per `UNI` or `MUL` column. -/
def tableIndexNames (t : SrcTable) : List String :=
  (t.columns.filter (fun c => c.key = "UNI" ∨ c.key = "MUL")).map
    (fun c => t.name ++ "_" ++ slugify c.field ++ "_IDX")

/-- Errors that abort the run. -/
inductive MigErr where
  | typeErr
  | indexExists
  | decodeFailed
deriving DecidableEq, Repr

/-- The effect of `_create_table` on the target: building the DDL fails if a
column type has no leading token; `CREATE TABLE IF NOT EXISTS` registers the
table (with its `PRI`/`UNI` uniqueness constraints) only when absent; each
`CREATE [UNIQUE] INDEX` statement fails if an index of that name already
exists, since the DDL carries no `IF NOT EXISTS` for indexes. -/
def createTableEffect (t : SrcTable) (tgt : Target) : Except MigErr Target :=
  match build_create_table_sql t.name t.columns with
  | .error _ => .error .typeErr
  | .ok _ =>
    let tables := if (tgt.tables.lookup t.name).isSome then tgt.tables
      else tgt.tables ++ [(t.name, ⟨keyIdx t.columns "PRI", keyIdx t.columns "UNI", []⟩)]
    let names := tableIndexNames t
    if names.any (fun nm => tgt.indexNames.contains nm) then .error .indexExists
    else .ok ⟨tables, tgt.indexNames ++ names⟩

/-- SQL value equality as uniqueness constraints use it: `NULL` compares
equal to nothing. -/
def sqlEq (a b : Value) : Bool :=
  match a, b with
  | .null, _ => false
  | _, .null => false
  | a, b => a == b

/-- Column `i` of a row (defaulting to `NULL` for a missing position). -/
def getCol (row : List Value) (i : Nat) : Value := row.getD i .null

/-- A new row collides with an existing one on the primary key: the table has
one and every primary-key column compares equal. -/
def pkConflict (pk : List Nat) (e r : List Value) : Bool :=
  ¬ pk.isEmpty && pk.all (fun i => sqlEq (getCol e i) (getCol r i))

/-- A new row collides with an existing one on some single-column unique
index. -/
def uniqConflict (uniq : List Nat) (e r : List Value) : Bool :=
  uniq.any (fun i => sqlEq (getCol e i) (getCol r i))

/-- `INSERT OR IGNORE`: the row is dropped silently iff it collides with an
existing row on the primary key or a unique index; otherwise appended. -/
def insertOrIgnore (t : TgtTable) (r : List Value) : TgtTable :=
  if t.rows.any (fun e => pkConflict t.pk e r || uniqConflict t.uniq e r) then t
  else { t with rows := t.rows ++ [r] }

/-- One `executemany` of the insert statement over decoded rows. -/
def insertAll (t : TgtTable) (rs : List (List Value)) : TgtTable :=
  rs.foldl insertOrIgnore t

/-- Decode a table's rows and `INSERT OR IGNORE` them all. -/
def transferRows (t : TgtTable) (rs : List (List Value)) : Except MigErr TgtTable :=
  match decodeRows rs with
  | .error _ => .error .decodeFailed
  | .ok dec => .ok (insertAll t dec)

/-- Replace the table stored under `name`. -/
def setTable (tables : List (String × TgtTable)) (name : String) (t : TgtTable) :
    List (String × TgtTable) :=
  tables.map (fun p => if p.1 = name then (p.1, t) else p)

/-- Observable orchestration steps of `transfer()`. -/
inductive MigEv where
  | created (name : String)
  | transferStarted (name : String)
deriving DecidableEq, Repr

/-- One iteration of `transfer()`'s table loop: reset the chunk index, create
the table, query `COUNT(*)`, and skip the copy entirely when it is zero. -/
def processTable (t : SrcTable) (tgt : Target) :
    Except MigErr (Target × List MigEv) :=
  match createTableEffect t tgt with
  | .error e => .error e
  | .ok tgt1 =>
    if t.rows.length > 0 then
      match tgt1.tables.lookup t.name with
      | none => .ok (tgt1, [.created t.name])
      | some tt =>
        match transferRows tt t.rows with
        | .error e => .error e
        | .ok tt2 =>
          .ok (⟨setTable tgt1.tables t.name tt2, tgt1.indexNames⟩,
            [.created t.name, .transferStarted t.name])
    else
      .ok (tgt1, [.created t.name])

/-- `transfer()`: process every source table in order; any propagated error
aborts the run without touching the remaining tables. -/
def migrate : List SrcTable → Target → Except MigErr (Target × List MigEv)
  | [], tgt => .ok (tgt, [])
  | t :: rest, tgt =>
    match processTable t tgt with
    | .error e => .error e
    | .ok (tgt1, evs1) =>
      match migrate rest tgt1 with
      | .error e => .error e
      | .ok (tgt2, evs2) => .ok (tgt2, evs1 ++ evs2)

/-- A fresh, empty target database file. -/
def freshTarget : Target := ⟨[], []⟩

/-- `SELECT COUNT(*)` on the migrated target. -/
def rowCount (tgt : Target) (name : String) : Nat :=
  match tgt.tables.lookup name with
  | some t => t.rows.length
  | none => 0

example :
    migrate [⟨"t", [⟨"a", "INT", "NO", ""⟩], [[Value.bytes "1"]]⟩] freshTarget =
    .ok (⟨[("t", ⟨[], [], [[Value.text "1"]]⟩)], []⟩,
      [.created "t", .transferStarted "t"]) := rfl

/-- A one-table source whose table has no primary key and no unique column. -/
def keylessSrc : List SrcTable :=
  [⟨"t", [⟨"a", "INT", "NO", ""⟩], [[Value.bytes "1"]]⟩]

/-- Claim C4, counterexample: for a table with no primary key and no unique
index, `INSERT OR IGNORE` has no conflict to ignore, so running the migration
a second time appends every row again — the row count doubles instead of
staying equal. -/
theorem claim_C4_counterexample :
    ∃ tgt1 evs1 tgt2 evs2,
      migrate keylessSrc freshTarget = .ok (tgt1, evs1) ∧
      migrate keylessSrc tgt1 = .ok (tgt2, evs2) ∧
      rowCount tgt1 "t" = 1 ∧
      rowCount tgt2 "t" = 2 :=
  ⟨_, _, _, _, rfl, rfl, rfl, rfl⟩

/-- Appending an entry for `k` keeps `lookup k` successful. -/
theorem lookup_isSome_append (l : List (String × TgtTable)) (k : String)
    (v : TgtTable) : ((l ++ [(k, v)]).lookup k).isSome := by
  induction l with
  | nil => simp [List.lookup]
  | cons p rest ih =>
    rcases p with ⟨k2, v2⟩
    simp only [List.cons_append, List.lookup]
    cases hbe : k == k2
    · simpa [hbe] using ih
    · simp [hbe]

/-- A successful `_create_table` leaves the table present in the target. -/
theorem createTableEffect_lookup (t : SrcTable) (tgt tgt1 : Target)
    (h : createTableEffect t tgt = .ok tgt1) :
    (tgt1.tables.lookup t.name).isSome := by
  unfold createTableEffect at h
  cases hb : build_create_table_sql t.name t.columns with
  | error e => rw [hb] at h; exact Except.noConfusion h
  | ok s =>
    rw [hb] at h
    dsimp only at h
    by_cases hl : (tgt.tables.lookup t.name).isSome
    · rw [if_pos hl] at h
      split_ifs at h with hidx
      obtain rfl := (Except.ok.inj h).symm
      exact hl
    · rw [if_neg hl] at h
      split_ifs at h with hidx
      obtain rfl := (Except.ok.inj h).symm
      exact lookup_isSome_append tgt.tables t.name _

/-- Claim C9: a zero-row table is schema-created but its copy step is skipped
entirely — the loop iteration emits only the creation, issues no insert, and
raises nothing beyond what creation itself could raise — the table is present
in the target afterwards and the run proceeds to the remaining tables. -/
theorem claim_C9 (t : SrcTable) (tgt tgt1 : Target)
    (hrows : t.rows = [])
    (hcreate : createTableEffect t tgt = .ok tgt1) :
    processTable t tgt = .ok (tgt1, [MigEv.created t.name]) ∧
    (tgt1.tables.lookup t.name).isSome ∧
    (∀ rest tgt2 evs2, migrate rest tgt1 = .ok (tgt2, evs2) →
      migrate (t :: rest) tgt = .ok (tgt2, MigEv.created t.name :: evs2)) := by
  have hproc : processTable t tgt = .ok (tgt1, [MigEv.created t.name]) := by
    simp [processTable, hcreate, hrows]
  refine ⟨hproc, createTableEffect_lookup t tgt tgt1 hcreate, ?_⟩
  intro rest tgt2 evs2 hrest
  simp [migrate, hproc, hrest]

/-- Claim C9, witness: a zero-row table `empty` followed by a one-row table
`u`; the zero-row table is created, not transferred, and `u` is still
processed. -/
theorem claim_C9_witness :
    processTable ⟨"empty", [⟨"a", "INT", "NO", ""⟩], []⟩ freshTarget =
      .ok (⟨[("empty", ⟨[], [], []⟩)], []⟩, [MigEv.created "empty"]) ∧
    migrate [⟨"empty", [⟨"a", "INT", "NO", ""⟩], []⟩,
             ⟨"u", [⟨"b", "INT", "NO", ""⟩], [[Value.bytes "2"]]⟩] freshTarget =
      .ok (⟨[("empty", ⟨[], [], []⟩), ("u", ⟨[], [], [[Value.text "2"]]⟩)], []⟩,
        [MigEv.created "empty", MigEv.created "u", MigEv.transferStarted "u"]) := by
  have h := claim_C9 ⟨"empty", [⟨"a", "INT", "NO", ""⟩], []⟩ freshTarget
    ⟨[("empty", ⟨[], [], []⟩)], []⟩ rfl rfl
  exact ⟨h.1, h.2.2 [⟨"u", [⟨"b", "INT", "NO", ""⟩], [[Value.bytes "2"]]⟩] _ _ rfl⟩

/-- Claim C10: the decode step is applied uniformly to every non-null column
value of every row — a successful decode means every non-null value was a
byte sequence, and the output is the positionwise byte-to-text image of the
input, with no regard to any declared column type — and a transfer whose rows
contain any non-null value without a decode operation raises instead of
inserting. -/
theorem claim_C10 :
    (∀ row d, decodeRow row = .ok d →
      d = row.map (fun v => match v with | Value.bytes s => Value.text s | v => v) ∧
      ∀ v ∈ row, v = Value.null ∨ ∃ s, v = Value.bytes s) ∧
    (∀ rows row, row ∈ rows →
      (∃ v ∈ row, v ≠ Value.null ∧ ∀ s, v ≠ Value.bytes s) →
      ∃ st, transfer_table_data none rows.length noFail noFail false false
        (initState rows) = .raisedDecode st) := by
  have hrow : ∀ row d, decodeRow row = .ok d →
      d = row.map (fun v => match v with | Value.bytes s => Value.text s | v => v) ∧
      ∀ v ∈ row, v = Value.null ∨ ∃ s, v = Value.bytes s := by
    intro row
    induction row with
    | nil =>
      intro d h
      obtain rfl : ([] : List Value) = d := Except.ok.inj h
      exact ⟨rfl, by simp⟩
    | cons v vs ih =>
      intro d h
      cases hv : decodeCol v with
      | error e =>
        simp only [decodeRow, hv] at h
        exact Except.noConfusion h
      | ok dv =>
        cases hvs : decodeRow vs with
        | error e =>
          simp only [decodeRow, hv, hvs] at h
          exact Except.noConfusion h
        | ok ds =>
          simp only [decodeRow, hv, hvs] at h
          obtain rfl : dv :: ds = d := Except.ok.inj h
          obtain ⟨hmap, hshape⟩ := ih ds hvs
          constructor
          · cases v with
            | bytes s =>
              simp only [decodeCol] at hv
              obtain rfl := (Except.ok.inj hv).symm
              simp [hmap]
            | text s =>
              simp only [decodeCol] at hv
              exact Except.noConfusion hv
            | intv n =>
              simp only [decodeCol] at hv
              exact Except.noConfusion hv
            | null =>
              simp only [decodeCol] at hv
              obtain rfl := (Except.ok.inj hv).symm
              simp [hmap]
          · intro w hw
            rcases List.mem_cons.mp hw with rfl | hw2
            · cases w <;> simp_all [decodeCol]
            · exact hshape w hw2
  refine ⟨hrow, ?_⟩
  rintro rows row hmem ⟨v, hv, hvnn, hvnb⟩
  have hbad : ∀ d, decodeRow row ≠ .ok d := by
    intro d hd
    rcases (hrow row d hd).2 v hv with rfl | ⟨s, rfl⟩
    · exact hvnn rfl
    · exact hvnb s rfl
  have hrows : ∀ rows2 : List (List Value), row ∈ rows2 →
      ∀ ds, decodeRows rows2 ≠ .ok ds := by
    intro rows2
    induction rows2 with
    | nil => intro hm; cases hm
    | cons r rs ih =>
      intro hm ds h
      cases hr : decodeRow r with
      | error e =>
        simp only [decodeRows, hr] at h
        exact Except.noConfusion h
      | ok dr =>
        cases hrs : decodeRows rs with
        | error e =>
          simp only [decodeRows, hr, hrs] at h
          exact Except.noConfusion h
        | ok dss =>
          rcases List.mem_cons.mp hm with rfl | hm2
          · exact hbad dr hr
          · exact ih hm2 dss hrs
  cases hd : decodeRows rows with
  | ok ds => exact absurd hd (hrows rows hmem ds)
  | error e =>
    refine ⟨initState rows, ?_⟩
    simp [transfer_table_data, attemptTransfer, attemptTransfer.unchunked,
      initState, hd]

/-- Claim C10, witness: a row holding a Python `int` (non-null, no
`.decode()`) makes the unchunked transfer raise. -/
theorem claim_C10_witness :
    ∃ st, transfer_table_data none 2 noFail noFail false false
      (initState [[Value.bytes "a"], [Value.intv 5]]) = .raisedDecode st :=
  claim_C10.2 [[Value.bytes "a"], [Value.intv 5]] [Value.intv 5]
    (by simp) ⟨Value.intv 5, by simp, by simp, fun s => by simp⟩

/-! ### Idempotence machinery for claim C4 -/

/-- The decoded rows of a table, defaulting to `[]` when decoding fails. -/
def decodedRowsD (rs : List (List Value)) : List (List Value) :=
  match decodeRows rs with
  | .ok d => d
  | .error _ => []

/-- The target table one migration run leaves behind for a source table. -/
def finalTT (t : SrcTable) : TgtTable :=
  insertAll ⟨keyIdx t.columns "PRI", keyIdx t.columns "UNI", []⟩
    (decodedRowsD t.rows)

/-- The per-table side conditions of the amended idempotence claim: the table
has a primary key, no secondary (`UNI`/`MUL`) column, synthesizable DDL, and
fully decodable rows whose primary-key values are non-null. -/
def goodTable (t : SrcTable) : Prop :=
  keyIdx t.columns "PRI" ≠ [] ∧
  (∀ c ∈ t.columns, c.key ≠ "UNI" ∧ c.key ≠ "MUL") ∧
  (∃ s, build_create_table_sql t.name t.columns = .ok s) ∧
  (∃ d, decodeRows t.rows = .ok d ∧
    ∀ r ∈ d, ∀ i ∈ keyIdx t.columns "PRI", getCol r i ≠ Value.null)

/-- No column is classified `k`, so no position is collected. -/
theorem keyIdx_nil (cols : List ShowColumn) (k : String)
    (h : ∀ c ∈ cols, c.key ≠ k) : keyIdx cols k = [] := by
  unfold keyIdx
  have hf : cols.enum.filter (fun p => p.2.key = k) = [] := by
    rw [List.filter_eq_nil_iff]
    intro p hp
    have hmem : p.2 ∈ cols := by
      have := List.mem_map_of_mem Prod.snd hp
      rwa [List.enum_map_snd] at this
    simpa using h p.2 hmem
  rw [hf]
  rfl

/-- No `UNI`/`MUL` column, so the DDL creates no index. -/
theorem tableIndexNames_nil (t : SrcTable)
    (h : ∀ c ∈ t.columns, c.key ≠ "UNI" ∧ c.key ≠ "MUL") :
    tableIndexNames t = [] := by
  unfold tableIndexNames
  rw [List.filter_eq_nil_iff.mpr]
  · rfl
  · intro c hc
    simp [(h c hc).1, (h c hc).2]

/-- `INSERT OR IGNORE` never changes the table's constraints. -/
theorem insertOrIgnore_fields (t : TgtTable) (r : List Value) :
    (insertOrIgnore t r).pk = t.pk ∧ (insertOrIgnore t r).uniq = t.uniq := by
  unfold insertOrIgnore
  split_ifs <;> exact ⟨rfl, rfl⟩

/-- Neither does a whole batch. -/
theorem insertAll_fields (rs : List (List Value)) :
    ∀ t : TgtTable, (insertAll t rs).pk = t.pk ∧ (insertAll t rs).uniq = t.uniq := by
  induction rs with
  | nil => exact fun t => ⟨rfl, rfl⟩
  | cons r rest ih =>
    intro t
    have h1 := insertOrIgnore_fields t r
    have h2 := ih (insertOrIgnore t r)
    exact ⟨h2.1.trans h1.1, h2.2.trans h1.2⟩

/-- Inserting more rows never removes an existing row. -/
theorem mem_insertAll (rs : List (List Value)) :
    ∀ (t : TgtTable) (e : List Value), e ∈ t.rows → e ∈ (insertAll t rs).rows := by
  induction rs with
  | nil => exact fun t e he => he
  | cons r rest ih =>
    intro t e he
    apply ih (insertOrIgnore t r)
    unfold insertOrIgnore
    split_ifs
    · exact he
    · exact List.mem_append_left _ he

/-- A non-null value is SQL-equal to itself. -/
theorem sqlEq_self (v : Value) (h : v ≠ Value.null) : sqlEq v v = true := by
  cases v <;> simp [sqlEq] at h ⊢

/-- A row with non-null primary-key values collides with itself. -/
theorem pkConflict_self (pk : List Nat) (r : List Value) (hpk : pk ≠ [])
    (hnn : ∀ i ∈ pk, getCol r i ≠ Value.null) : pkConflict pk r r = true := by
  unfold pkConflict
  rw [Bool.and_eq_true]
  constructor
  · simpa using hpk
  · rw [List.all_eq_true]
    intro i hi
    exact sqlEq_self _ (hnn i hi)

/-- After inserting a batch of rows with non-null primary keys into a table
with a primary key and no unique index, every batch row has a primary-key
witness among the stored rows. -/
theorem insertAll_covers (rs : List (List Value)) :
    ∀ (t : TgtTable), t.pk ≠ [] → t.uniq = [] →
      (∀ r ∈ rs, ∀ i ∈ t.pk, getCol r i ≠ Value.null) →
      ∀ r ∈ rs, ∃ e ∈ (insertAll t rs).rows, pkConflict t.pk e r = true := by
  induction rs with
  | nil => intro t _ _ _ r hr; cases hr
  | cons r0 rest ih =>
    intro t hpk huq hnn r hr
    have hfields := insertOrIgnore_fields t r0
    rcases List.mem_cons.mp hr with heq | hr2
    · subst heq
      by_cases hconf :
        (t.rows.any (fun e => pkConflict t.pk e r || uniqConflict t.uniq e r)) = true
      · obtain ⟨e, he, hconfe⟩ := List.any_eq_true.mp hconf
        have hpke : pkConflict t.pk e r = true := by
          simp only [Bool.or_eq_true] at hconfe
          rcases hconfe with h | h
          · exact h
          · rw [huq] at h
            simp [uniqConflict] at h
        refine ⟨e, ?_, hpke⟩
        show e ∈ (insertAll (insertOrIgnore t r) rest).rows
        refine mem_insertAll rest (insertOrIgnore t r) e ?_
        unfold insertOrIgnore
        rw [if_pos hconf]
        exact he
      · refine ⟨r, ?_, pkConflict_self t.pk r hpk (hnn r (by simp))⟩
        show r ∈ (insertAll (insertOrIgnore t r) rest).rows
        refine mem_insertAll rest (insertOrIgnore t r) r ?_
        unfold insertOrIgnore
        rw [if_neg hconf]
        simp
    · have hres := ih (insertOrIgnore t r0)
        (by rw [hfields.1]; exact hpk)
        (by rw [hfields.2]; exact huq)
        (fun r2 hr2b i hi =>
          hnn r2 (List.mem_cons_of_mem _ hr2b) i (by rwa [hfields.1] at hi))
        r hr2
      obtain ⟨e, he, hc⟩ := hres
      rw [hfields.1] at hc
      exact ⟨e, he, hc⟩

/-- A batch in which every row already collides is a no-op. -/
theorem insertAll_id (rs : List (List Value)) (t : TgtTable)
    (h : ∀ r ∈ rs, ∃ e ∈ t.rows,
      (pkConflict t.pk e r || uniqConflict t.uniq e r) = true) :
    insertAll t rs = t := by
  induction rs with
  | nil => rfl
  | cons r rest ih =>
    have hc : insertOrIgnore t r = t := by
      unfold insertOrIgnore
      rw [if_pos]
      obtain ⟨e, he, hce⟩ := h r (by simp)
      exact List.any_eq_true.mpr ⟨e, he, hce⟩
    show insertAll (insertOrIgnore t r) rest = t
    rw [hc]
    exact ih (fun r2 hr2 => h r2 (List.mem_cons_of_mem _ hr2))

/-- Re-inserting the same batch into the table it produced changes nothing:
every row now collides with its first-run copy on the primary key. -/
theorem insertAll_idem (dec : List (List Value)) (pk uq : List Nat)
    (hpk : pk ≠ []) (huq : uq = [])
    (hnn : ∀ r ∈ dec, ∀ i ∈ pk, getCol r i ≠ Value.null) :
    insertAll (insertAll ⟨pk, uq, []⟩ dec) dec = insertAll ⟨pk, uq, []⟩ dec := by
  have hfields := insertAll_fields dec ⟨pk, uq, []⟩
  apply insertAll_id
  intro r hr
  obtain ⟨e, he, hc⟩ := insertAll_covers dec ⟨pk, uq, []⟩ hpk huq hnn r hr
  refine ⟨e, he, ?_⟩
  rw [hfields.1, hfields.2]
  simp only [Bool.or_eq_true]
  exact Or.inl hc

/-- `lookup` misses when the key is absent. -/
theorem lookup_eq_none_of_notmem (l : List (String × TgtTable)) (k : String)
    (h : k ∉ l.map Prod.fst) : l.lookup k = none := by
  induction l with
  | nil => rfl
  | cons p rest ih =>
    rcases p with ⟨k2, v2⟩
    simp only [List.map_cons, List.mem_cons] at h
    push_neg at h
    have hbe : (k == k2) = false := beq_eq_false_iff_ne.mpr h.1
    simp [List.lookup, hbe, ih h.2]

/-- `lookup` skips a first block that does not hold the key. -/
theorem lookup_append_of_notmem (l1 l2 : List (String × TgtTable)) (k : String)
    (h : k ∉ l1.map Prod.fst) : (l1 ++ l2).lookup k = l2.lookup k := by
  induction l1 with
  | nil => rfl
  | cons p rest ih =>
    rcases p with ⟨k2, v2⟩
    simp only [List.map_cons, List.mem_cons] at h
    push_neg at h
    have hbe : (k == k2) = false := beq_eq_false_iff_ne.mpr h.1
    simp [List.lookup, hbe, ih h.2]

/-- Overwriting an absent key changes nothing. -/
theorem setTable_of_notmem (l : List (String × TgtTable)) (k : String)
    (v : TgtTable) (h : k ∉ l.map Prod.fst) : setTable l k v = l := by
  induction l with
  | nil => rfl
  | cons p rest ih =>
    rcases p with ⟨k2, v2⟩
    simp only [List.map_cons, List.mem_cons] at h
    push_neg at h
    simp only [setTable, List.map_cons]
    rw [if_neg (by simpa using Ne.symm h.1)]
    have := ih h.2
    simp only [setTable] at this
    rw [this]

/-- Overwriting a key with the value it already stores changes nothing when
keys are unambiguous. -/
theorem setTable_lookup_self (l : List (String × TgtTable)) (k : String)
    (v : TgtTable) (hnd : (l.map Prod.fst).Nodup) (hl : l.lookup k = some v) :
    setTable l k v = l := by
  induction l with
  | nil => rfl
  | cons p rest ih =>
    rcases p with ⟨k2, v2⟩
    simp only [List.map_cons, List.nodup_cons] at hnd
    cases hbe : k == k2 with
    | true =>
      have hk : k = k2 := beq_iff_eq.mp hbe
      have hv : v2 = v := by
        simp only [List.lookup, hbe] at hl
        exact Option.some.inj hl
      simp only [setTable, List.map_cons]
      have hrest : setTable rest k v = rest :=
        setTable_of_notmem rest k v (by rw [hk]; exact hnd.1)
      simp only [setTable] at hrest
      rw [if_pos hk.symm, hrest, hv]
    | false =>
      have hk : k ≠ k2 := by simpa using beq_eq_false_iff_ne.mp hbe
      simp only [List.lookup, hbe] at hl
      simp only [setTable, List.map_cons]
      rw [if_neg (Ne.symm hk)]
      have hrest := ih hnd.2 hl
      simp only [setTable] at hrest
      rw [hrest]

/-- In a name-deduplicated association of tables to their run-one images,
every source table looks up to its own image. -/
theorem lookup_map_finalTT (src : List SrcTable)
    (hnd : (src.map SrcTable.name).Nodup) (t : SrcTable) (ht : t ∈ src) :
    (src.map (fun u => (u.name, finalTT u))).lookup t.name = some (finalTT t) := by
  induction src with
  | nil => cases ht
  | cons u rest ih =>
    simp only [List.map_cons, List.nodup_cons] at hnd
    rcases List.mem_cons.mp ht with rfl | ht2
    · simp [List.lookup]
    · have hne : t.name ≠ u.name := by
        intro hEq
        exact hnd.1 (hEq ▸ List.mem_map_of_mem SrcTable.name ht2)
      have hbe : (t.name == u.name) = false := beq_eq_false_iff_ne.mpr hne
      simp only [List.map_cons, List.lookup, hbe]
      exact ih hnd.2 ht2

/-- A table creation against a target not yet holding the table, for a table
with synthesizable DDL and no secondary index. -/
theorem createTableEffect_new (t : SrcTable) (tgt : Target)
    (hb : ∃ s, build_create_table_sql t.name t.columns = .ok s)
    (hniu : tableIndexNames t = [])
    (hnew : t.name ∉ tgt.tables.map Prod.fst) :
    createTableEffect t tgt =
      .ok ⟨tgt.tables ++
        [(t.name, ⟨keyIdx t.columns "PRI", keyIdx t.columns "UNI", []⟩)],
        tgt.indexNames⟩ := by
  obtain ⟨s, hs⟩ := hb
  unfold createTableEffect
  rw [hs]
  dsimp only
  rw [lookup_eq_none_of_notmem _ _ hnew]
  simp [hniu]

/-- Re-running table creation when the table already exists: `CREATE TABLE IF
NOT EXISTS` is a no-op and no index statement runs. -/
theorem createTableEffect_existing (t : SrcTable) (tgt : Target)
    (hb : ∃ s, build_create_table_sql t.name t.columns = .ok s)
    (hniu : tableIndexNames t = [])
    (hsome : (tgt.tables.lookup t.name).isSome) :
    createTableEffect t tgt = .ok tgt := by
  obtain ⟨s, hs⟩ := hb
  unfold createTableEffect
  rw [hs]
  dsimp only
  simp [hsome, hniu]

/-- One loop iteration over a well-behaved table not yet in the target
appends exactly that table's run-one image. -/
theorem processTable_new (t : SrcTable) (tgt : Target)
    (hg : goodTable t) (hnew : t.name ∉ tgt.tables.map Prod.fst) :
    ∃ evs, processTable t tgt =
      .ok (⟨tgt.tables ++ [(t.name, finalTT t)], tgt.indexNames⟩, evs) := by
  obtain ⟨hpk, hnokey, hb, d, hd, hnn⟩ := hg
  have hniu : tableIndexNames t = [] := tableIndexNames_nil t hnokey
  have hcr := createTableEffect_new t tgt hb hniu hnew
  unfold processTable
  rw [hcr]
  dsimp only
  by_cases hrows : t.rows.length > 0
  · rw [if_pos hrows]
    have hlk : ((tgt.tables ++
        [(t.name, (⟨keyIdx t.columns "PRI", keyIdx t.columns "UNI", []⟩ : TgtTable))]).lookup
          t.name) =
        some ⟨keyIdx t.columns "PRI", keyIdx t.columns "UNI", []⟩ := by
      rw [lookup_append_of_notmem _ _ _ hnew]
      simp [List.lookup]
    rw [hlk]
    have htr : transferRows ⟨keyIdx t.columns "PRI", keyIdx t.columns "UNI", []⟩
        t.rows = .ok (insertAll ⟨keyIdx t.columns "PRI", keyIdx t.columns "UNI", []⟩ d) := by
      unfold transferRows
      rw [hd]
    dsimp only
    rw [htr]
    dsimp only
    have hfin : finalTT t =
        insertAll ⟨keyIdx t.columns "PRI", keyIdx t.columns "UNI", []⟩ d := by
      unfold finalTT decodedRowsD
      rw [hd]
    have hset : setTable (tgt.tables ++
        [(t.name, (⟨keyIdx t.columns "PRI", keyIdx t.columns "UNI", []⟩ : TgtTable))])
        t.name (insertAll ⟨keyIdx t.columns "PRI", keyIdx t.columns "UNI", []⟩ d) =
        tgt.tables ++ [(t.name,
          insertAll ⟨keyIdx t.columns "PRI", keyIdx t.columns "UNI", []⟩ d)] := by
      unfold setTable
      rw [List.map_append]
      have hleft := setTable_of_notmem tgt.tables t.name
        (insertAll ⟨keyIdx t.columns "PRI", keyIdx t.columns "UNI", []⟩ d) hnew
      simp only [setTable] at hleft
      rw [hleft]
      simp
    rw [hset, hfin]
    exact ⟨_, rfl⟩
  · rw [if_neg hrows]
    have hnil : t.rows = [] := List.eq_nil_of_length_eq_zero (by omega)
    have hfin : finalTT t =
        (⟨keyIdx t.columns "PRI", keyIdx t.columns "UNI", []⟩ : TgtTable) := by
      unfold finalTT decodedRowsD
      rw [hnil]
      rfl
    rw [hfin]
    exact ⟨_, rfl⟩

/-- The first run over a fresh region of the target appends, in order, each
table's run-one image and touches nothing else. -/
theorem migrate_fresh (src : List SrcTable) :
    ∀ tgt : Target,
      (∀ t ∈ src, goodTable t) →
      (src.map SrcTable.name).Nodup →
      (∀ t ∈ src, t.name ∉ tgt.tables.map Prod.fst) →
      ∃ evs, migrate src tgt =
        .ok (⟨tgt.tables ++ src.map (fun t => (t.name, finalTT t)),
          tgt.indexNames⟩, evs) := by
  induction src with
  | nil =>
    intro tgt _ _ _
    exact ⟨[], by simp [migrate]⟩
  | cons t rest ih =>
    intro tgt hg hnd hnew
    simp only [List.map_cons, List.nodup_cons] at hnd
    obtain ⟨evs1, hp⟩ := processTable_new t tgt (hg t (by simp)) (hnew t (by simp))
    obtain ⟨evs2, hm⟩ := ih ⟨tgt.tables ++ [(t.name, finalTT t)], tgt.indexNames⟩
      (fun u hu => hg u (List.mem_cons_of_mem _ hu)) hnd.2
      (fun u hu => by
        simp only [List.map_append, List.mem_append, List.map_cons]
        push_neg
        refine ⟨hnew u (List.mem_cons_of_mem _ hu), ?_⟩
        have hne : u.name ≠ t.name := by
          intro hEq
          exact hnd.1 (hEq ▸ List.mem_map_of_mem SrcTable.name hu)
        simp [hne])
    refine ⟨evs1 ++ evs2, ?_⟩
    simp only [migrate, hp, hm]
    congr 2
    simp

/-- A second pass over tables whose run-one images are already stored leaves
the target untouched: creation is a no-op and every insert is ignored. -/
theorem migrate_idem (src : List SrcTable) :
    ∀ tgt : Target,
      (tgt.tables.map Prod.fst).Nodup →
      (∀ t ∈ src, goodTable t) →
      (∀ t ∈ src, tgt.tables.lookup t.name = some (finalTT t)) →
      ∃ evs, migrate src tgt = .ok (tgt, evs) := by
  induction src with
  | nil =>
    intro tgt _ _ _
    exact ⟨[], rfl⟩
  | cons t rest ih =>
    intro tgt hnd hg hlk
    obtain ⟨hpk, hnokey, hb, d, hd, hnn⟩ := hg t (by simp)
    have hniu : tableIndexNames t = [] := tableIndexNames_nil t hnokey
    have hcr := createTableEffect_existing t tgt hb hniu
      (by rw [hlk t (by simp)]; rfl)
    have hfin : finalTT t =
        insertAll ⟨keyIdx t.columns "PRI", keyIdx t.columns "UNI", []⟩ d := by
      unfold finalTT decodedRowsD
      rw [hd]
    have huq0 : keyIdx t.columns "UNI" = [] :=
      keyIdx_nil _ _ (fun c hc => (hnokey c hc).1)
    have hidem : insertAll (finalTT t) d = finalTT t := by
      rw [hfin]
      exact insertAll_idem d _ _ hpk huq0 hnn
    have hset : setTable tgt.tables t.name (finalTT t) = tgt.tables :=
      setTable_lookup_self _ _ _ hnd (hlk t (by simp))
    have hproc : ∃ evs1, processTable t tgt = .ok (tgt, evs1) := by
      unfold processTable
      rw [hcr]
      dsimp only
      by_cases hrows : t.rows.length > 0
      · rw [if_pos hrows, hlk t (by simp)]
        have htr : transferRows (finalTT t) t.rows =
            .ok (insertAll (finalTT t) d) := by
          unfold transferRows
          rw [hd]
        dsimp only
        rw [htr]
        dsimp only
        rw [hidem, hset]
        exact ⟨_, rfl⟩
      · rw [if_neg hrows]
        exact ⟨_, rfl⟩
    obtain ⟨evs1, hp⟩ := hproc
    obtain ⟨evs2, hm⟩ := ih tgt hnd (fun u hu => hg u (List.mem_cons_of_mem _ hu))
      (fun u hu => hlk u (List.mem_cons_of_mem _ hu))
    exact ⟨evs1 ++ evs2, by simp [migrate, hp, hm]⟩

/-- Claim C4, amended: when every source table has a primary key, no
secondary (`UNI`/`MUL`) column, synthesizable types, and decodable rows with
non-null primary-key values, running the migration twice from a fresh target
gives the second run the very same target as the first — no error is raised
and every per-table row count is unchanged, the duplicate-key inserts being
silently ignored. -/
theorem claim_C4 (src : List SrcTable)
    (hgood : ∀ t ∈ src, goodTable t)
    (hnd : (src.map SrcTable.name).Nodup) :
    ∃ tgt1 evs1 tgt2 evs2,
      migrate src freshTarget = .ok (tgt1, evs1) ∧
      migrate src tgt1 = .ok (tgt2, evs2) ∧
      tgt2 = tgt1 ∧
      ∀ name, rowCount tgt2 name = rowCount tgt1 name := by
  obtain ⟨evs1, h1⟩ := migrate_fresh src freshTarget hgood hnd
    (fun t _ => by simp [freshTarget])
  have hkeys : ((src.map (fun t => (t.name, finalTT t))).map Prod.fst) =
      src.map SrcTable.name := by
    rw [List.map_map]
    rfl
  obtain ⟨evs2, h2⟩ := migrate_idem src
    ⟨freshTarget.tables ++ src.map (fun t => (t.name, finalTT t)),
      freshTarget.indexNames⟩
    (by simpa [freshTarget, hkeys] using hnd) hgood
    (fun t ht => by
      simp only [freshTarget, List.nil_append]
      exact lookup_map_finalTT src hnd t ht)
  exact ⟨_, evs1, _, evs2, h1, h2, rfl, fun _ => rfl⟩

/-- Claim C4, witness: one table with an `INT` primary key and one row;
running twice from fresh returns the identical target both times. -/
theorem claim_C4_witness :
    ∃ tgt1 evs1 tgt2 evs2,
      migrate [⟨"t", [⟨"id", "INT", "NO", "PRI"⟩], [[Value.bytes "1"]]⟩]
        freshTarget = .ok (tgt1, evs1) ∧
      migrate [⟨"t", [⟨"id", "INT", "NO", "PRI"⟩], [[Value.bytes "1"]]⟩]
        tgt1 = .ok (tgt2, evs2) ∧
      tgt2 = tgt1 ∧
      ∀ name, rowCount tgt2 name = rowCount tgt1 name := by
  refine claim_C4 [⟨"t", [⟨"id", "INT", "NO", "PRI"⟩], [[Value.bytes "1"]]⟩]
    ?_ (by simp)
  intro t ht
  simp only [List.mem_singleton] at ht
  subst ht
  exact ⟨by decide, by decide, ⟨_, rfl⟩, ⟨[[Value.text "1"]], rfl, by decide⟩⟩

end MySQLtoSQLite
